import Mathlib

/-
Verification of the ATMB-Addresses pipeline (ATMB_scrape.py, ATMB_detail.py,
ATMB_verify.py) against its natural-language specification.  The Python code
is shallowly embedded: strings are Lean Strings (manipulated through their
List Char data where convenient), CSV rows are lists or small structures,
dicts of CSV records are association lists, and every external effect
(HTTP fetch, validation API) is an explicit oracle parameter.
-/

namespace ATMB

/-! ## Python string primitives -/

/-- Python whitespace characters, as used by str.strip and str.split. -/
def isSpaceC (c : Char) : Bool :=
  c = ' ' || c = '\t' || c = '\n' || c = '\r' || c = '\x0b' || c = '\x0c'

/-- Python str.strip on the character list: drop whitespace at both ends. -/
def stripCL (l : List Char) : List Char :=
  ((l.dropWhile isSpaceC).reverse.dropWhile isSpaceC).reverse

/-- Python str.strip. -/
def pyStrip (s : String) : String := String.mk (stripCL s.data)

/-- Python text.split(chr(10)): split on newline, keeping empty pieces. -/
def splitNl : List Char → List (List Char)
  | [] => [[]]
  | c :: t =>
    if c = '\n' then [] :: splitNl t
    else
      match splitNl t with
      | [] => [[c]]
      | w :: ws => (c :: w) :: ws

/-- Whether the first list starts the second (used for substring search). -/
def leadsCL : List Char → List Char → Bool
  | [], _ => true
  | _ :: _, [] => false
  | a :: as, b :: bs => a = b && leadsCL as bs

/-- Python substring containment: needle in hay. -/
def containsCL (needle : List Char) : List Char → Bool
  | [] => needle.isEmpty
  | c :: t => leadsCL needle (c :: t) || containsCL needle t

/-- Python needle in hay, on Strings. -/
def strContains (hay needle : String) : Bool := containsCL needle.data hay.data

/-- ASCII lower-casing of one character (Python str.lower on the data the
pipeline handles). -/
def lowerC : Char → Char
  | 'A' => 'a' | 'B' => 'b' | 'C' => 'c' | 'D' => 'd' | 'E' => 'e'
  | 'F' => 'f' | 'G' => 'g' | 'H' => 'h' | 'I' => 'i' | 'J' => 'j'
  | 'K' => 'k' | 'L' => 'l' | 'M' => 'm' | 'N' => 'n' | 'O' => 'o'
  | 'P' => 'p' | 'Q' => 'q' | 'R' => 'r' | 'S' => 's' | 'T' => 't'
  | 'U' => 'u' | 'V' => 'v' | 'W' => 'w' | 'X' => 'x' | 'Y' => 'y'
  | 'Z' => 'z'
  | c => c

/-- str.lower on a character list. -/
def lowerCL (l : List Char) : List Char := l.map lowerC

/-- Python str.split with no arguments: split on whitespace runs, no empty
words.  The accumulator holds the current word reversed. -/
def pySplitAux : List Char → List Char → List (List Char)
  | [], acc => if acc = [] then [] else [acc.reverse]
  | c :: t, acc =>
    if isSpaceC c then
      if acc = [] then pySplitAux t [] else acc.reverse :: pySplitAux t []
    else pySplitAux t (c :: acc)

/-- The whitespace-separated words of a character list. -/
def wordsOf (l : List Char) : List (List Char) := pySplitAux l []

/-- sep.join(words) on character lists. -/
def joinWith (sep : List Char) : List (List Char) → List Char
  | [] => []
  | [w] => w
  | w :: ws => w ++ sep ++ joinWith sep ws

/-! ## ATMB_detail.py: clean_text and construct_url -/

/-- clean_text from ATMB_detail.py: chr(32).join(text.split()). -/
def clean_text (s : String) : String := String.mk (joinWith [' '] (wordsOf s.data))

/-- Python str.replace(a, b) for single characters. -/
def replChar (a b : Char) (l : List Char) : List Char :=
  l.map fun c => if c = a then b else c

/-- Python str.replace(a, empty) for a single character. -/
def delChar (a : Char) (l : List Char) : List Char :=
  l.filter fun c => c != a

/-- construct_url from ATMB_detail.py: slugs are clean_text, lower-cased,
spaces turned to hyphens; the street slug additionally loses dots and hash
marks; composed into the fixed /s/ path. -/
def construct_url (city street_address : String) : String :=
  String.mk ("https://www.anytimemailbox.com/s/".data
    ++ replChar ' ' '-' (lowerCL (clean_text city).data)
    ++ ['-']
    ++ delChar '#' (delChar '.' (replChar ' ' '-' (lowerCL (clean_text street_address).data))))

/-- Modelled from the wording of the spec: a slug is the lower-cased text
with internal whitespace runs replaced by single hyphens. -/
def slugSpecCL (l : List Char) : List Char := joinWith ['-'] (wordsOf (lowerCL l))

/-- Modelled from the wording of the spec: the synthesized detail URL, with
periods and hash characters stripped from the street component. -/
def urlSpec (city street : String) : String :=
  String.mk ("https://www.anytimemailbox.com/s/".data
    ++ slugSpecCL city.data
    ++ ['-']
    ++ delChar '#' (delChar '.' (slugSpecCL street.data)))

/-! ## ATMB_detail.py: extract_suite_info -/

/-- A regex word character, the backslash-w class: letters, digits, underscore. -/
def isWordChar (c : Char) : Bool :=
  ('a' ≤ c && c ≤ 'z') || ('A' ≤ c && c ≤ 'Z') || ('0' ≤ c && c ≤ '9') || c = '_'

/-- Case-insensitive match of the (lower-cased) word w at the head of the
text, requiring a non-word character or the end of text right after it. -/
def wordAtCL : List Char → List Char → Bool
  | [], [] => true
  | [], c :: _ => !isWordChar c
  | _ :: _, [] => false
  | w :: ws, c :: t => (lowerC c = w) && wordAtCL ws t

/-- Search for a whole-word occurrence of w; the boolean tracks whether the
previous character was a word character (the left word boundary). -/
def hasWordAux (w : List Char) : Bool → List Char → Bool
  | _, [] => false
  | prevW, c :: t => (!prevW && wordAtCL w (c :: t)) || hasWordAux w (isWordChar c) t

/-- Whole-word, case-insensitive occurrence of w (given lower-cased) in line. -/
def hasWholeWordCI (w line : String) : Bool := hasWordAux w.data false line.data

/-- The unit-info test of extract_suite_info: whole word Suite, Ste, Unit or
Apt (case-insensitive) or a hash character anywhere in the line. -/
def lineMatchesUnit (line : String) : Bool :=
  hasWholeWordCI "suite" line || hasWholeWordCI "ste" line
    || hasWholeWordCI "unit" line || hasWholeWordCI "apt" line
    || containsCL ['#'] line.data

/-- The boilerplate filter of extract_suite_info: lines holding any of the
three literal marker substrings are discarded. -/
def isBoilerplate (line : String) : Bool :=
  strContains line "United States" || strContains line "Your Real Street Address"
    || strContains line "YOUR NAME"

/-- Python line.replace(quote MAILBOX quote, empty): remove every literal
occurrence of MAILBOX, scanning left to right. -/
def removeMailbox : List Char → List Char
  | 'M' :: 'A' :: 'I' :: 'L' :: 'B' :: 'O' :: 'X' :: t => removeMailbox t
  | c :: t => c :: removeMailbox t
  | [] => []

/-- The cleaned candidate line: MAILBOX removed, then stripped. -/
def cleanUnitLine (line : String) : String :=
  pyStrip (String.mk (removeMailbox line.data))

/-- The line list of extract_suite_info: split the container text on
newlines, strip each line, keep the non-empty ones. -/
def cleanLines (text : String) : List String :=
  ((splitNl text.data).map (fun l => String.mk (stripCL l))).filter (fun l => l ≠ "")

/-- The line loop of extract_suite_info, with the continue statements made
explicit: skip boilerplate lines; on a matching line return the cleaned text
when it is longer than one character, otherwise keep scanning. -/
def extractFromLines : List String → String
  | [] => ""
  | l :: ls =>
    if isBoilerplate l then extractFromLines ls
    else if lineMatchesUnit l then
      if 1 < (cleanUnitLine l).length then cleanUnitLine l else extractFromLines ls
    else extractFromLines ls

/-- extract_suite_info from ATMB_detail.py, on the visible text of the
address container (the markup lookup is outside the embedding; the function
receives the text the container yields). -/
def extract_suite_info (text : String) : String := extractFromLines (cleanLines text)

/-- Acceptance test used by the spec-side reformulation. -/
def unitLineAccept (l : String) : Bool :=
  lineMatchesUnit l && decide (1 < (cleanUnitLine l).length)

/-- Modelled from the wording of the spec: discard boilerplate lines, then
return the first remaining line that matches the unit pattern and whose
cleaned form is longer than one character, else the empty string. -/
def extractSpecOf (text : String) : String :=
  match ((cleanLines text).filter (fun l => !isBoilerplate l)).find? unitLineAccept with
  | some l => cleanUnitLine l
  | none => ""

/-! ## ATMB_detail.py: save_csv as a filesystem trace

save_csv writes the whole table to filename plus a tmp suffix, removes the
target if it exists, and renames the temporary file onto the target.  The
trace records the pair (target content, temp content) at every step the
filesystem can be observed in: the start, each prefix of the temporary
write, the removal (only when a target existed), and the rename. -/

/-- A persisted CSV table: a list of rows, each a list of cells. -/
abbrev Table := List (List String)

/-- Contents of the two paths save_csv touches; none means the path is absent. -/
structure FSState where
  target : Option Table
  temp : Option Table
deriving DecidableEq, Repr

/-- States observed while the temporary file is being written: the target
keeps its old content, the temp path holds ever longer prefixes of the rows. -/
def writeTempStates (old : Option Table) (rows : Table) : List FSState :=
  (List.range (rows.length + 1)).map fun k => { target := old, temp := some (rows.take k) }

/-- The full observable trace of save_csv: initial state, temp-write states,
the removal state when a previous target existed, and the final rename. -/
def save_csv_trace (old : Option Table) (rows : Table) : List FSState :=
  { target := old, temp := none } ::
    (writeTempStates old rows
      ++ (match old with
          | some _ => [{ target := none, temp := some rows }]
          | none => [])
      ++ [{ target := some rows, temp := none }])

/-- The states strictly between the start and the end of a save. -/
def intermediateStates (old : Option Table) (rows : Table) : List FSState :=
  ((save_csv_trace old rows).drop 1).dropLast

/-- Concrete previous output table used in counterexamples. -/
def exOld : Table := [["h"], ["r1"]]

/-- Concrete new table used in counterexamples. -/
def exNew : Table := [["h"], ["r1"], ["r2"]]

/-! ## ATMB_detail.py: the process_file enrichment loop

A record is modelled by the four fields the loop reads or writes; the HTTP
fetch and extraction (lines 140 to 168 of the source) are collapsed into an
oracle from the request URL to an outcome: a redirect to a generic page
(which the code answers with continue, skipping the rest of the iteration)
or a fetched page whose extracted suite text is s, the empty string standing
for every non-enriching outcome (non-200 status, exception, no extraction). -/

/-- The fields of one CSV record that process_file reads or writes. -/
structure DRow where
  suite : String
  city : String
  street : String
  detailUrl : String
deriving DecidableEq, Repr, Inhabited

/-- Outcome of one external fetch, as the loop body distinguishes them. -/
inductive FetchOutcome where
  | redirect : FetchOutcome
  | result : String → FetchOutcome
deriving DecidableEq, Repr

/-- URL resolution of the loop: the stripped explicit Detail Url when
non-empty, else the synthesized URL. -/
def urlOf (row : DRow) : String :=
  if pyStrip row.detailUrl ≠ "" then pyStrip row.detailUrl
  else construct_url row.city row.street

/-- The effect of one loop iteration on its own record (the only record it
touches): skip when the stripped suite is non-empty or city or street is
missing or the fetch redirects; set the suite when the extraction is
non-empty; otherwise leave the record alone. -/
def rowStep (oracle : String → FetchOutcome) (row : DRow) : DRow :=
  if pyStrip row.suite ≠ "" then row
  else if row.city = "" ∨ row.street = "" then row
  else
    match oracle (urlOf row) with
    | .redirect => row
    | .result s => if s ≠ "" then { row with suite := s } else row

/-- Whether an iteration reaches the fetch: suite unresolved and both city
and street present. -/
def rowFetches (row : DRow) : Bool :=
  (pyStrip row.suite = "") && !(row.city = "") && !(row.street = "")

/-- Contribution of one record to success_count: one for a record skipped as
already resolved, one for a fresh successful enrichment, zero otherwise. -/
def countedScore (oracle : String → FetchOutcome) (row : DRow) : Nat :=
  if pyStrip row.suite ≠ "" then 1
  else if row.city = "" ∨ row.street = "" then 0
  else
    match oracle (urlOf row) with
    | .redirect => 0
    | .result s => if s ≠ "" then 1 else 0

/-- The indices, starting at idx, of the records a pass fetches. -/
def fetchesFrom (idx : Nat) : List DRow → List Nat
  | [] => []
  | r :: t =>
    if rowFetches r then idx :: fetchesFrom (idx + 1) t
    else fetchesFrom (idx + 1) t

/-- The records whose stripped suite field is already non-empty. -/
def countResolved (rows : List DRow) : Nat :=
  rows.countP fun r => pyStrip r.suite != ""

/-- Loop state of process_file: processed prefix, remaining records, the
running index, the total row count, success_count, the updated_any flag, the
last persisted table (none before the first save), and the fetched indices. -/
structure EState where
  done : List DRow
  rest : List DRow
  idx : Nat
  total : Nat
  success : Nat
  updatedAny : Bool
  saved : Option (List DRow)
  fetched : List Nat

/-- One iteration of the loop body on the current record.  The three
continue paths (already resolved, missing city or street, redirect) skip the
incremental-save check at the bottom of the body, exactly as in the source;
only iterations that complete a fetch reach it. -/
def estepCons (oracle : String → FetchOutcome) (row : DRow) (rest : List DRow)
    (st : EState) : EState :=
  if pyStrip row.suite ≠ "" then
    { st with done := st.done ++ [row], rest := rest, idx := st.idx + 1,
              success := st.success + 1 }
  else if row.city = "" ∨ row.street = "" then
    { st with done := st.done ++ [row], rest := rest, idx := st.idx + 1 }
  else
    match oracle (urlOf row) with
    | .redirect =>
      { st with done := st.done ++ [row], rest := rest, idx := st.idx + 1,
                fetched := st.fetched ++ [st.idx] }
    | .result s =>
      let row' := if s ≠ "" then { row with suite := s } else row
      let succ' := if s ≠ "" then st.success + 1 else st.success
      let upd' := if s ≠ "" then true else st.updatedAny
      if upd' ∧ (st.idx % 10 = 0 ∨ st.idx = st.total - 1) then
        { done := st.done ++ [row'], rest := rest, idx := st.idx + 1,
          total := st.total, success := succ', updatedAny := false,
          saved := some (st.done ++ row' :: rest), fetched := st.fetched ++ [st.idx] }
      else
        { done := st.done ++ [row'], rest := rest, idx := st.idx + 1,
          total := st.total, success := succ', updatedAny := upd',
          saved := st.saved, fetched := st.fetched ++ [st.idx] }

/-- One step of the loop: process the next remaining record, if any. -/
def estep (oracle : String → FetchOutcome) (st : EState) : EState :=
  match st.rest with
  | [] => st
  | row :: rest => estepCons oracle row rest st

/-- k steps of the loop. -/
def esteps (oracle : String → FetchOutcome) : Nat → EState → EState
  | 0, st => st
  | k + 1, st => esteps oracle k (estep oracle st)

/-- The loop state on entry. -/
def einit (rows : List DRow) : EState :=
  { done := [], rest := rows, idx := 0, total := rows.length,
    success := 0, updatedAny := false, saved := none, fetched := [] }

/-- The full working table held by a state. -/
def finalRows (st : EState) : List DRow := st.done ++ st.rest

/-- One whole pass of process_file over the working table: run the loop to
the end, then perform the unconditional final save. -/
def enrichRun (oracle : String → FetchOutcome) (rows : List DRow) : EState :=
  let st := esteps oracle rows.length (einit rows)
  { st with saved := some (st.done ++ st.rest) }

/-- The table a pass leaves behind. -/
def enrichOnce (oracle : String → FetchOutcome) (rows : List DRow) : List DRow :=
  finalRows (enrichRun oracle rows)

/-- The resume protocol of process_file: when a previous output exists and
its row count is at least the row count of the input, the loaded table
becomes the working table wholesale; otherwise the input is used. -/
def processWorking (inputRows : List DRow) (savedRows : Option (List DRow)) : List DRow :=
  match savedRows with
  | some s => if s.length ≥ inputRows.length then s else inputRows
  | none => inputRows

/-- A second invocation on the same input: the previous output is found,
passes the row-count test, is adopted, and the pass runs again. -/
def enrichSecond (oracle : String → FetchOutcome) (rows : List DRow) : List DRow :=
  enrichOnce oracle (processWorking rows (some (enrichOnce oracle rows)))

/-- A record whose suite field holds a single space: non-empty, yet
unresolved after stripping. -/
def wsRow : DRow := { suite := " ", city := "a", street := "b", detailUrl := "" }

/-- An unresolved record with city and street present. -/
def cRowOpen : DRow := { suite := "", city := "a", street := "b", detailUrl := "" }

/-- A record already resolved before the pass. -/
def cRowDone : DRow := { suite := "Z", city := "a", street := "b", detailUrl := "" }

/-- An oracle for which every fetch succeeds with suite text. -/
def cOracle : String → FetchOutcome := fun _ => .result "#9"

/-- Twenty-two records with the already-resolved ones sitting exactly on the
batch-boundary indices 0, 10, 20 and on the final index 21. -/
def cRows22 : List DRow :=
  [cRowDone] ++ List.replicate 9 cRowOpen ++ [cRowDone]
    ++ List.replicate 9 cRowOpen ++ [cRowDone, cRowDone]

/-! ## ATMB_detail.py: fieldnames handling of process_file -/

/-- The secondary-unit column name. -/
def suiteCol : String := "Suite/Apartment"

/-- Python list.insert(i, x): insert before position i, clamping to the end. -/
def pyInsertIdx : Nat → String → List String → List String
  | 0, x, l => x :: l
  | _ + 1, x, [] => [x]
  | n + 1, x, a :: t => a :: pyInsertIdx n x t

/-- The fieldnames computation of process_file: start from the input header;
when resuming with at least as many saved rows, adopt the saved header if it
has the suite column and the input header does not; finally insert the suite
column at index 1 when still absent. -/
def computeFieldnames (inputF : List String) (resume : Option (List String × Nat))
    (nInput : Nat) : List String :=
  let f :=
    match resume with
    | some (sf, nSaved) =>
      if nSaved ≥ nInput ∧ suiteCol ∉ inputF ∧ suiteCol ∈ sf then sf else inputF
    | none => inputF
  if suiteCol ∈ f then f else pyInsertIdx 1 suiteCol f

/-- Index of the first occurrence of a column name (length when absent). -/
def colIndex (x : String) : List String → Nat
  | [] => 0
  | y :: t => if y = x then 0 else colIndex x t + 1

/-! ## ATMB_scrape.py: parse_address_block and the entry filter -/

/-- ASCII uppercase letter test, the A-Z regex class. -/
def isUpperC (c : Char) : Bool := 'A' ≤ c && c ≤ 'Z'

/-- ASCII digit test, the backslash-d regex class. -/
def isDigitC (c : Char) : Bool := '0' ≤ c && c ≤ '9'

/-- Match five digits optionally followed by a hyphen and four digits, at
the very end of the text, returning the zip text. -/
def parseZipEnd : List Char → Option String
  | d1 :: d2 :: d3 :: d4 :: d5 :: rest =>
    if isDigitC d1 && isDigitC d2 && isDigitC d3 && isDigitC d4 && isDigitC d5 then
      match rest with
      | [] => some (String.mk [d1, d2, d3, d4, d5])
      | '-' :: e1 :: e2 :: e3 :: e4 :: [] =>
        if isDigitC e1 && isDigitC e2 && isDigitC e3 && isDigitC e4 then
          some (String.mk [d1, d2, d3, d4, d5, '-', e1, e2, e3, e4])
        else none
      | _ => none
    else none
  | _ => none

/-- Match the part of the pattern after the comma: one or more whitespace
characters, exactly two uppercase letters, one or more whitespace
characters, and the zip at the end. -/
def parseTailCSZ : List Char → Option (String × String)
  | c :: t =>
    if isSpaceC c then
      match t.dropWhile isSpaceC with
      | a :: b :: t2 =>
        if isUpperC a && isUpperC b then
          match t2 with
          | c2 :: t3 =>
            if isSpaceC c2 then
              match parseZipEnd (t3.dropWhile isSpaceC) with
              | some z => some (String.mk [a, b], z)
              | none => none
            else none
          | [] => none
        else none
      | _ => none
    else none
  | [] => none

/-- The anchored city-state-zip regex of parse_address_block applied to one
line.  The greedy leading group makes the engine split at the rightmost
comma whose tail matches, so candidate commas are tried from the right; the
city group is stripped as in the source. -/
def parse_last_line (s : String) : Option (String × String × String) :=
  (((List.range s.data.length).reverse.filterMap fun i =>
    if s.data.getD i ' ' = ',' then
      match parseTailCSZ (s.data.drop (i + 1)) with
      | some (st, z) => some (pyStrip (String.mk (s.data.take i)), st, z)
      | none => none
    else none)).head?

/-- The stripped non-empty lines of an address block, as parse_address_block
computes them. -/
def partsOf (addrText : String) : List String :=
  ((splitNl addrText.data).map (fun l => String.mk (stripCL l))).filter (fun p => p ≠ "")

/-- The body of parse_address_block on the prepared line list: the first
line is the street; with at least two lines the last line is matched against
the pattern, empty city, state and zip on failure; none when the block has
no non-empty line. -/
def parseBlockParts : List String → Option (String × String × String × String)
  | [] => none
  | [street] => some (street, "", "", "")
  | street :: r :: rs =>
    match parse_last_line ((r :: rs).getLast (List.cons_ne_nil r rs)) with
    | some (c, st, z) => some (street, c, st, z)
    | none => some (street, "", "", "")

/-- parse_address_block from ATMB_scrape.py. -/
def parse_address_block (addrText : String) :
    Option (String × String × String × String) :=
  parseBlockParts (partsOf addrText)

/-- The last non-empty stripped line of an address block (empty string when
there is none). -/
def lastStrippedLine (addrText : String) : String :=
  (partsOf addrText).getLastD ""

/-- One listing entry of scrape_state: parse the address block and keep the
row only when street, city, state and zip are all non-empty. -/
def scrapeItem (addrText detailUrl : String) : Option (List String) :=
  match parse_address_block addrText with
  | none => none
  | some (s, c, st, z) =>
    if s ≠ "" ∧ c ≠ "" ∧ st ≠ "" ∧ z ≠ "" then some [s, c, st, z, detailUrl]
    else none

/-- The data rows scrape_state writes for a list of (address text, detail
URL) entries. -/
def scrape_rows (items : List (String × String)) : List (List String) :=
  items.filterMap fun p => scrapeItem p.1 p.2

/-! ## ATMB_verify.py: verify_address and the output loop -/

/-- One candidate of the validation response: the rdi field of its metadata
object and the dpv_cmra field of its analysis object, each possibly absent. -/
structure Candidate where
  rdi : Option String
  dpv_cmra : Option String
deriving DecidableEq, Repr

/-- Outcome of one validation call: any raised exception, or a JSON
candidate list. -/
inductive ApiResult where
  | exn : ApiResult
  | ok : List Candidate → ApiResult
deriving DecidableEq, Repr

/-- verify_address from ATMB_verify.py: exceptions give the Error pair, an
empty candidate list the Invalid pair, and missing fields of the first
candidate default to Unknown. -/
def verify_address (resp : ApiResult) : String × String :=
  match resp with
  | .exn => ("Error", "Error")
  | .ok [] => ("Invalid", "Invalid")
  | .ok (c :: _) => (c.rdi.getD "Unknown", c.dpv_cmra.getD "Unknown")

/-- A CSV record of the verifier, as the association list of its fields. -/
abbrev VRow := List (String × String)

/-- Python dict assignment row[k] = v: replace the value of an existing key,
else append the pair. -/
def setField (k v : String) : VRow → VRow
  | [] => [(k, v)]
  | (k', v') :: t => if k' = k then (k, v) :: t else (k', v') :: setField k v t

/-- Field lookup in a record. -/
def getField (k : String) : VRow → Option String
  | [] => none
  | (k', v') :: t => if k' = k then some v' else getField k t

/-- The output loop of the verifier main: one call per record in order, the
i-th call answered by the oracle, RDI then CMRA written into the record, the
record appended to the output. -/
def verifyAux (oracle : Nat → ApiResult) : Nat → List VRow → List VRow
  | _, [] => []
  | i, row :: t =>
    let rc := verify_address (oracle i)
    setField "CMRA" rc.2 (setField "RDI" rc.1 row) :: verifyAux oracle (i + 1) t

/-- The whole verifier output table. -/
def verifyLoop (oracle : Nat → ApiResult) (rows : List VRow) : List VRow :=
  verifyAux oracle 0 rows

/-- The output path of the verifier: the input path with the verified tag
spliced in before the extension. -/
def verify_output_file (base ext : String) : String := base ++ "_verified" ++ ext

/-- The loop state used in the C4 witness: one unresolved record, index 0. -/
def c4State : EState :=
  { done := [], rest := [cRowOpen], idx := 0, total := 1, success := 0,
    updatedAny := false, saved := none, fetched := [] }

/-! ## Theorems -/

/-- C1: the resume protocol of process_file adopts the loaded table wholesale
when its row count is at least the row count of the input, and discards it
otherwise, starting fresh from the input. -/
theorem C1_resume_protocol (inputRows savedRows : List DRow) :
    (savedRows.length ≥ inputRows.length →
      processWorking inputRows (some savedRows) = savedRows) ∧
    (savedRows.length < inputRows.length →
      processWorking inputRows (some savedRows) = inputRows) := by
  refine ⟨fun h => ?_, fun h => ?_⟩
  · simp [processWorking, h]
  · simp only [processWorking]
    rw [if_neg (by omega)]

/-- Witness for C1 at concrete tables on both sides of the row-count test. -/
theorem C1_resume_protocol_witness :
    processWorking [cRowOpen] (some [cRowDone, cRowDone]) = [cRowDone, cRowDone] ∧
    processWorking [cRowOpen, cRowOpen] (some [cRowDone]) = [cRowOpen, cRowOpen] :=
  ⟨(C1_resume_protocol [cRowOpen] [cRowDone, cRowDone]).1 (by decide),
   (C1_resume_protocol [cRowOpen, cRowOpen] [cRowDone]).2 (by decide)⟩

/-- C3 counterexample: with a previous output table present, the state after
the removal and before the rename has an absent target, so the save is not a
single-operation replacement and an intermediate state of the save does leave
the target path absent. -/
theorem C3_counterexample :
    ¬ (∀ fs ∈ intermediateStates (some exOld) exNew, fs.target ≠ none) := by decide

/-- Helper: getLastD of a list ending in a known element. -/
theorem getLastD_append_singleton {α : Type} (l : List α) (x d : α) :
    (l ++ [x]).getLastD d = x := by
  induction l generalizing d with
  | nil => rfl
  | cons a t ih =>
    rw [List.cons_append, List.getLastD_cons]
    exact ih a

/-- C3 amended: save_csv first writes the complete table to the temporary
path, so at every observable state the target holds the complete old table,
the complete new table, or nothing at all, never a half-written table; the
save ends with the new table at the target; and when no previous output
existed the target passes only through absent and the complete new table. -/
theorem C3_save_never_half_written (old : Option Table) (rows : Table) :
    (∀ fs ∈ save_csv_trace old rows,
      fs.target = old ∨ fs.target = none ∨ fs.target = some rows) ∧
    (save_csv_trace old rows).getLastD { target := none, temp := none } =
      { target := some rows, temp := none } ∧
    (∀ fs ∈ save_csv_trace none rows, fs.target = none ∨ fs.target = some rows) := by
  have hmem : ∀ (ov : Option Table) (fs : FSState), fs ∈ save_csv_trace ov rows →
      fs.target = ov ∨ fs.target = none ∨ fs.target = some rows := by
    intro ov fs hfs
    rcases List.mem_cons.1 hfs with h | hfs2
    · rw [h]
      exact Or.inl rfl
    · rcases List.mem_append.1 hfs2 with h2 | h3
      · rcases List.mem_append.1 h2 with h4 | h5
        · rcases List.mem_map.1 h4 with ⟨k, _, hk⟩
          rw [← hk]
          exact Or.inl rfl
        · cases ov with
          | none => simp at h5
          | some t =>
            rw [List.mem_singleton] at h5
            rw [h5]
            simp
      · rw [List.mem_singleton] at h3
        rw [h3]
        simp
  refine ⟨hmem old, ?_, ?_⟩
  · show (({ target := old, temp := none } : FSState) ::
      (writeTempStates old rows ++ _ ++ [{ target := some rows, temp := none }])).getLastD _ = _
    rw [← List.cons_append, getLastD_append_singleton]
  · intro fs hfs
    rcases hmem none fs hfs with h | h | h
    · exact Or.inl h
    · exact Or.inl h
    · exact Or.inr h

/-- Witness for C3 amended at a concrete trace state. -/
theorem C3_save_never_half_written_witness :
    ((⟨some exOld, none⟩ : FSState).target = some exOld ∨
      (⟨some exOld, none⟩ : FSState).target = none ∨
      (⟨some exOld, none⟩ : FSState).target = some exNew) ∧
    (save_csv_trace (some exOld) exNew).getLastD { target := none, temp := none } =
      { target := some exNew, temp := none } :=
  ⟨(C3_save_never_half_written (some exOld) exNew).1 ⟨some exOld, none⟩ (by decide),
   (C3_save_never_half_written (some exOld) exNew).2.1⟩

/-- Helper: the loop of extract_suite_info returns the cleaned form of the
first non-boilerplate line accepted by the unit test. -/
theorem extractFromLines_eq (ls : List String) :
    extractFromLines ls =
      match (ls.filter fun l => !isBoilerplate l).find? unitLineAccept with
      | some l => cleanUnitLine l
      | none => "" := by
  induction ls with
  | nil => rfl
  | cons l ls ih =>
    by_cases hb : isBoilerplate l
    · simpa [extractFromLines, hb] using ih
    · by_cases hm : lineMatchesUnit l
      · by_cases hlen : 1 < (cleanUnitLine l).length
        · simp [extractFromLines, hb, hm, hlen, unitLineAccept, List.find?_cons]
        · simpa [extractFromLines, hb, hm, hlen, unitLineAccept, List.find?_cons] using ih
      · simpa [extractFromLines, hb, hm, unitLineAccept, List.find?_cons] using ih

/-- C5: extract_suite_info discards boilerplate lines and returns the first
remaining line matching the whole-word unit pattern or containing a hash,
MAILBOX stripped, provided the cleaned length exceeds one; on the two
example blocks it yields the unit text and the empty string respectively. -/
theorem C5_extraction_heuristic :
    (∀ text, extract_suite_info text = extractSpecOf text) ∧
    extract_suite_info "MAILBOX #244\n123 Main St\nUnited States" = "#244" ∧
    extract_suite_info "United States\nYOUR NAME" = "" :=
  ⟨fun text => extractFromLines_eq (cleanLines text), by decide, by decide⟩

/-- Helper: the inserted column is a member of the result of pyInsertIdx. -/
theorem mem_pyInsertIdx (n : Nat) (x : String) (l : List String) :
    x ∈ pyInsertIdx n x l := by
  induction n generalizing l with
  | zero => simp [pyInsertIdx]
  | succ n ih =>
    cases l with
    | nil => simp [pyInsertIdx]
    | cons a t => simpa [pyInsertIdx] using Or.inr (ih t)

/-- C6: when the suite column is absent from a non-empty input header it is
inserted at index 1, between the first column and the rest, never appended;
and a resumed invocation on the previous output header computes the very
same header, so the column index is stable across repeated invocations. -/
theorem C6_schema_stability :
    (∀ (a : String) (t : List String) (n : Nat), suiteCol ∉ a :: t →
      computeFieldnames (a :: t) none n = a :: suiteCol :: t ∧
      colIndex suiteCol (computeFieldnames (a :: t) none n) = 1) ∧
    (∀ (inputF : List String) (n m : Nat),
      computeFieldnames inputF (some (computeFieldnames inputF none n, m)) n =
        computeFieldnames inputF none n) := by
  constructor
  · intro a t n h
    have ha : ¬(a = suiteCol) := by
      intro he; exact h (he ▸ List.mem_cons_self a t)
    have h1 : computeFieldnames (a :: t) none n = a :: suiteCol :: t := by
      simp [computeFieldnames, h, pyInsertIdx]
    refine ⟨h1, ?_⟩
    rw [h1]
    simp [colIndex, ha]
  · intro inputF n m
    by_cases hc : suiteCol ∈ inputF
    · have h1 : computeFieldnames inputF none n = inputF := by
        simp [computeFieldnames, hc]
      rw [h1]
      simp [computeFieldnames, hc]
    · have h1 : computeFieldnames inputF none n = pyInsertIdx 1 suiteCol inputF := by
        simp [computeFieldnames, hc]
      have hmem : suiteCol ∈ pyInsertIdx 1 suiteCol inputF := mem_pyInsertIdx 1 suiteCol inputF
      rw [h1]
      by_cases hm : m ≥ n
      · simp [computeFieldnames, hc, hm, hmem]
      · simp [computeFieldnames, hc, hm, hmem]

/-- Witness for C6 on the real header of the scraped tables. -/
theorem C6_schema_stability_witness :
    computeFieldnames ["Street Address", "City"] none 3 =
      "Street Address" :: suiteCol :: ["City"] ∧
    colIndex suiteCol (computeFieldnames ["Street Address", "City"] none 3) = 1 :=
  C6_schema_stability.1 "Street Address" ["City"] 3 (by decide)

/-- Helper: getLastD on a list of at least two elements is its getLast. -/
theorem getLastD_cons_cons {α : Type} (a b : α) (l : List α) (d : α) :
    (a :: b :: l).getLastD d = (b :: l).getLast (List.cons_ne_nil b l) := by
  rw [List.getLastD_eq_getLast?, List.getLast?_eq_getLast _ (by simp),
    Option.getD_some, List.getLast_cons_cons]

/-- Helper: an entry whose last non-empty line fails the city-state-zip
pattern produces no output row. -/
theorem scrapeItem_none_of_fail (text url : String)
    (h : parse_last_line (lastStrippedLine text) = none) :
    scrapeItem text url = none := by
  rw [lastStrippedLine] at h
  rw [scrapeItem, parse_address_block]
  cases hp : partsOf text with
  | nil => rfl
  | cons street rest =>
    cases rest with
    | nil => simp [parseBlockParts]
    | cons r rs =>
      rw [hp, getLastD_cons_cons] at h
      simp [parseBlockParts, h]

/-- C7: the last non-empty line of a listing address block is matched against
the city, two-letter state, five-digit zip pattern; the example line parses
to its three components, a line with no comma and no state fails, and any
entry whose last line fails the pattern contributes nothing to the output
table. -/
theorem C7_listing_entry_parse :
    parse_last_line "Airmont, NY 10901" = some ("Airmont", "NY", "10901") ∧
    parse_address_block "123 Street\nAirmont, NY 10901" =
      some ("123 Street", "Airmont", "NY", "10901") ∧
    parse_last_line "Somewhere Else 12345" = none ∧
    (∀ text url pre post, parse_last_line (lastStrippedLine text) = none →
      scrape_rows (pre ++ (text, url) :: post) = scrape_rows pre ++ scrape_rows post) := by
  refine ⟨by decide, by decide, by decide, ?_⟩
  intro text url pre post h
  rw [scrape_rows, scrape_rows, scrape_rows, List.filterMap_append, List.filterMap_cons]
  rw [scrapeItem_none_of_fail text url h]

/-- Witness for C7: the unparseable entry disappears from a concrete table. -/
theorem C7_listing_entry_parse_witness :
    scrape_rows ([("123 Street\nAirmont, NY 10901", "u")]
        ++ ("Somewhere Else 12345", "v") :: []) =
      scrape_rows [("123 Street\nAirmont, NY 10901", "u")] ++ scrape_rows [] :=
  C7_listing_entry_parse.2.2.2 "Somewhere Else 12345" "v"
    [("123 Street\nAirmont, NY 10901", "u")] [] (by decide)

/-- Helper: looking up the key just written returns the written value. -/
theorem getField_setField_same (k v : String) (r : VRow) :
    getField k (setField k v r) = some v := by
  induction r with
  | nil => simp [setField, getField]
  | cons p t ih =>
    obtain ⟨k2, v2⟩ := p
    by_cases h : k2 = k
    · simp [setField, getField, h]
    · simp [setField, getField, h, ih]

/-- Helper: writing one key leaves every other key unchanged. -/
theorem getField_setField_ne (k k2 v : String) (h : k ≠ k2) (r : VRow) :
    getField k (setField k2 v r) = getField k r := by
  have h2 : ¬(k2 = k) := fun he => h he.symm
  induction r with
  | nil => simp [setField, getField, h2]
  | cons p t ih =>
    obtain ⟨k3, v3⟩ := p
    by_cases h3 : k3 = k2
    · subst h3
      simp [setField, getField, h2]
    · simp only [setField, getField, if_neg h3]
      by_cases hk : k3 = k
      · simp [getField, hk]
      · simp [getField, hk, ih]

/-- Helper: the verifier loop writes one output row per input row. -/
theorem verifyAux_length (oracle : Nat → ApiResult) (rows : List VRow) :
    ∀ j, (verifyAux oracle j rows).length = rows.length := by
  induction rows with
  | nil => intro j; rfl
  | cons row t ih => intro j; simp [verifyAux, ih (j + 1)]

/-- Helper: the i-th output row is the i-th input row with the two
classification fields written from the answer to the (j + i)-th call. -/
theorem verifyAux_getD (oracle : Nat → ApiResult) (rows : List VRow) :
    ∀ j i, i < rows.length →
      (verifyAux oracle j rows).getD i [] =
        setField "CMRA" (verify_address (oracle (j + i))).2
          (setField "RDI" (verify_address (oracle (j + i))).1 (rows.getD i [])) := by
  induction rows with
  | nil => intro j i h; simp at h
  | cons row t ih =>
    intro j i h
    cases i with
    | zero => simp [verifyAux]
    | succ i =>
      have hlen : i < t.length := by simpa using Nat.lt_of_succ_lt_succ h
      have he : j + 1 + i = j + (i + 1) := by omega
      simp only [verifyAux, List.getD_cons_succ]
      rw [ih (j + 1) i hlen, he]

/-- C8: verify_address converts every external failure to explicit sentinel
values, an exception giving Error for both fields, an empty candidate list
Invalid, and missing response fields Unknown; and a record whose call raised
an exception is still written to the output with both sentinels set, the
output keeping one row per input row. -/
theorem C8_verifier_sentinels :
    verify_address .exn = ("Error", "Error") ∧
    verify_address (.ok []) = ("Invalid", "Invalid") ∧
    (∀ cs, verify_address (.ok ({ rdi := none, dpv_cmra := none } :: cs)) =
      ("Unknown", "Unknown")) ∧
    (∀ oracle rows, (verifyLoop oracle rows).length = rows.length) ∧
    (∀ oracle rows i, i < rows.length → oracle i = .exn →
      getField "RDI" ((verifyLoop oracle rows).getD i []) = some "Error" ∧
      getField "CMRA" ((verifyLoop oracle rows).getD i []) = some "Error") := by
  refine ⟨rfl, rfl, fun cs => rfl, fun oracle rows => verifyAux_length oracle rows 0, ?_⟩
  intro oracle rows i h hexn
  rw [verifyLoop, verifyAux_getD oracle rows 0 i h]
  have h0 : (0 : Nat) + i = i := by omega
  rw [h0, hexn]
  constructor
  · rw [getField_setField_ne "RDI" "CMRA" _ (by decide), getField_setField_same]
    rfl
  · rw [getField_setField_same]
    rfl

/-- Witness for C8: a run whose single call raises yields the record with
both Error sentinels, still present in the output. -/
theorem C8_verifier_sentinels_witness :
    getField "RDI" ((verifyLoop (fun _ => ApiResult.exn) [[("City", "X")]]).getD 0 []) =
      some "Error" ∧
    getField "CMRA" ((verifyLoop (fun _ => ApiResult.exn) [[("City", "X")]]).getD 0 []) =
      some "Error" ∧
    (verifyLoop (fun _ => ApiResult.exn) [[("City", "X")]]).length = 1 :=
  ⟨(C8_verifier_sentinels.2.2.2.2 (fun _ => ApiResult.exn) [[("City", "X")]] 0
      (by decide) rfl).1,
   (C8_verifier_sentinels.2.2.2.2 (fun _ => ApiResult.exn) [[("City", "X")]] 0
      (by decide) rfl).2,
   C8_verifier_sentinels.2.2.2.1 (fun _ => ApiResult.exn) [[("City", "X")]]⟩

/-- C10: the verifier output has exactly one row per input row, in order;
every field other than the two classification fields keeps its input value;
and the output path always differs from the input path, so the input file is
never written. -/
theorem C10_verifier_frame :
    (∀ oracle rows, (verifyLoop oracle rows).length = rows.length) ∧
    (∀ oracle rows i k, i < rows.length → k ≠ "RDI" → k ≠ "CMRA" →
      getField k ((verifyLoop oracle rows).getD i []) = getField k (rows.getD i [])) ∧
    (∀ base ext, verify_output_file base ext ≠ base ++ ext) := by
  refine ⟨fun oracle rows => verifyAux_length oracle rows 0, ?_, ?_⟩
  · intro oracle rows i k h hr hc
    rw [verifyLoop, verifyAux_getD oracle rows 0 i h]
    rw [getField_setField_ne _ _ _ hc, getField_setField_ne _ _ _ hr]
  · intro base ext h
    have h2 := congrArg String.length h
    have h9 : ("_verified" : String).length = 9 := rfl
    rw [verify_output_file, String.length_append, String.length_append,
      String.length_append, h9] at h2
    omega

/-- Witness for C10: an untouched field of a concrete run keeps its value. -/
theorem C10_verifier_frame_witness :
    getField "City" ((verifyLoop (fun _ => ApiResult.exn) [[("City", "X")]]).getD 0 []) =
      getField "City" ([[("City", "X")]].getD 0 []) :=
  C10_verifier_frame.2.1 (fun _ => ApiResult.exn) [[("City", "X")]] 0 "City"
    (by decide) (by decide) (by decide)

/-- Helper: the effect of one loop iteration on the tracked state fields,
expressed through the per-record functions. -/
theorem estepCons_fields (o : String → FetchOutcome) (row : DRow) (rest : List DRow)
    (st : EState) :
    (estepCons o row rest st).done = st.done ++ [rowStep o row] ∧
    (estepCons o row rest st).rest = rest ∧
    (estepCons o row rest st).idx = st.idx + 1 ∧
    (estepCons o row rest st).total = st.total ∧
    (estepCons o row rest st).fetched =
      st.fetched ++ (if rowFetches row then [st.idx] else []) ∧
    (estepCons o row rest st).success = st.success + countedScore o row := by
  by_cases h1 : pyStrip row.suite ≠ ""
  · simp [estepCons, rowStep, countedScore, rowFetches, h1]
  · have h1e : pyStrip row.suite = "" := not_not.mp h1
    by_cases h2 : row.city = "" ∨ row.street = ""
    · have hf : rowFetches row = false := by
        rcases h2 with h2 | h2 <;> simp [rowFetches, h2]
      simp [estepCons, rowStep, countedScore, h1, h2, hf]
    · have hc : ¬(row.city = "") := fun hh => h2 (Or.inl hh)
      have hs2 : ¬(row.street = "") := fun hh => h2 (Or.inr hh)
      have hf : rowFetches row = true := by simp [rowFetches, h1e, hc, hs2]
      cases ho : o (urlOf row) with
      | redirect => simp [estepCons, rowStep, countedScore, h1, h2, ho, hf]
      | result s =>
        by_cases hs : s ≠ ""
        · simp only [estepCons, rowStep, countedScore, h1, h2, ho, hs, if_neg h1,
            if_neg h2, if_pos hs, ite_true, ite_false, hf]
          split <;> simp
        · simp only [estepCons, rowStep, countedScore, h1, h2, ho, hs, if_neg h1,
            if_neg h2, ite_true, ite_false, hf]
          split <;> simp [hs]

/-- Helper: the loop state after k iterations, for every component with a
closed form: the processed prefix is the per-record map, the remainder is
the drop, the index advances by k, the fetched indices and success count
accumulate per record. -/
theorem esteps_spec (o : String → FetchOutcome) (k : Nat) (st : EState)
    (h : k ≤ st.rest.length) :
    (esteps o k st).done = st.done ++ (st.rest.take k).map (rowStep o) ∧
    (esteps o k st).rest = st.rest.drop k ∧
    (esteps o k st).idx = st.idx + k ∧
    (esteps o k st).fetched = st.fetched ++ fetchesFrom st.idx (st.rest.take k) ∧
    (esteps o k st).success = st.success + ((st.rest.take k).map (countedScore o)).sum := by
  induction k generalizing st with
  | zero => simp [esteps, fetchesFrom]
  | succ k ih =>
    cases hr : st.rest with
    | nil => rw [hr] at h; simp at h
    | cons row rest =>
      have hrw : estep o st = estepCons o row rest st := by
        rw [estep, hr]
      obtain ⟨hd, hre, hi, ht, hfe, hsu⟩ := estepCons_fields o row rest st
      have hlen : k ≤ (estep o st).rest.length := by
        rw [hrw, hre]
        rw [hr] at h
        simpa using Nat.lt_succ_iff.mp (Nat.lt_of_lt_of_le (Nat.lt_succ_self _) h)
      have IH := ih (estep o st) hlen
      rw [esteps]
      refine ⟨?_, ?_, ?_, ?_, ?_⟩
      · rw [IH.1, hrw, hd, hre, List.take_succ_cons, List.map_cons]
        simp
      · rw [IH.2.1, hrw, hre, List.drop_succ_cons]
      · rw [IH.2.2.1, hrw, hi]
        omega
      · rw [IH.2.2.2.1, hrw, hfe, hre, hi, List.take_succ_cons]
        by_cases hf : rowFetches row
        · simp [fetchesFrom, hf]
        · simp [fetchesFrom, hf]
      · rw [IH.2.2.2.2, hrw, hsu, hre, List.take_succ_cons, List.map_cons]
        simp
        omega

/-- Helper: a full pass maps rowStep over the working table. -/
theorem enrichOnce_eq_map (o : String → FetchOutcome) (rows : List DRow) :
    enrichOnce o rows = rows.map (rowStep o) := by
  obtain ⟨hd, hre, _, _, _⟩ := esteps_spec o rows.length (einit rows) (by simp [einit])
  simp only [enrichOnce, enrichRun, finalRows]
  rw [hd, hre]
  simp [einit]

/-- Helper: the fetched indices of a full pass. -/
theorem enrichRun_fetched (o : String → FetchOutcome) (rows : List DRow) :
    (enrichRun o rows).fetched = fetchesFrom 0 rows := by
  obtain ⟨_, _, _, hfe, _⟩ := esteps_spec o rows.length (einit rows) (by simp [einit])
  simp only [enrichRun]
  rw [hfe]
  simp [einit]

/-- Helper: the success count of a full pass. -/
theorem enrichRun_success (o : String → FetchOutcome) (rows : List DRow) :
    (enrichRun o rows).success = ((rows.map (countedScore o)).sum) := by
  obtain ⟨_, _, _, _, hsu⟩ := esteps_spec o rows.length (einit rows) (by simp [einit])
  simp only [enrichRun]
  rw [hsu]
  simp [einit]

/-- Helper: an iteration on a record with non-empty stripped suite leaves it
unchanged. -/
theorem rowStep_skip (o : String → FetchOutcome) (row : DRow)
    (h : pyStrip row.suite ≠ "") : rowStep o row = row := by
  simp [rowStep, h]

/-- Helper: rowStep is idempotent: an iteration on the outcome of an
iteration changes nothing, for any oracle, since the oracle is re-asked the
same URL. -/
theorem rowStep_idem (o : String → FetchOutcome) (row : DRow) :
    rowStep o (rowStep o row) = rowStep o row := by
  by_cases h1 : pyStrip row.suite ≠ ""
  · rw [rowStep_skip o row h1, rowStep_skip o row h1]
  · by_cases h2 : row.city = "" ∨ row.street = ""
    · have hr : rowStep o row = row := by simp [rowStep, h1, h2]
      rw [hr, hr]
    · cases ho : o (urlOf row) with
      | redirect =>
        have hr : rowStep o row = row := by simp [rowStep, h1, h2, ho]
        rw [hr, hr]
      | result s =>
        by_cases hs : s = ""
        · have hr : rowStep o row = row := by simp [rowStep, h1, h2, ho, hs]
          rw [hr, hr]
        · have hr : rowStep o row = { row with suite := s } := by
            simp [rowStep, h1, h2, ho, hs]
          rw [hr]
          by_cases h1s : pyStrip s ≠ ""
          · simp [rowStep, h1s]
          · have hurl : urlOf { row with suite := s } = urlOf row := rfl
            simp [rowStep, h1s, h2, hurl, ho, hs]

/-- Helper: every fetched index is at least the starting index. -/
theorem fetchesFrom_ge (l : List DRow) : ∀ (idx j : Nat),
    j ∈ fetchesFrom idx l → idx ≤ j := by
  induction l with
  | nil => intro idx j hj; simp [fetchesFrom] at hj
  | cons r t ih =>
    intro idx j hj
    by_cases hf : rowFetches r
    · rw [fetchesFrom, if_pos hf] at hj
      rcases List.mem_cons.1 hj with h | h
      · omega
      · have := ih (idx + 1) j h
        omega
    · rw [fetchesFrom, if_neg hf] at hj
      have := ih (idx + 1) j hj
      omega

/-- Helper: a record already resolved at loop entry is never fetched. -/
theorem not_mem_fetchesFrom (l : List DRow) : ∀ (idx m : Nat), m < l.length →
    pyStrip (l.getD m default).suite ≠ "" → (idx + m) ∉ fetchesFrom idx l := by
  induction l with
  | nil => intro idx m hm; simp at hm
  | cons r t ih =>
    intro idx m hm hres
    cases m with
    | zero =>
      rw [List.getD_cons_zero] at hres
      have hf : rowFetches r = false := by simp [rowFetches, hres]
      rw [fetchesFrom, if_neg (by simp [hf])]
      intro hmem
      have := fetchesFrom_ge t (idx + 1) (idx + 0) hmem
      omega
    | succ m =>
      rw [List.getD_cons_succ] at hres
      have hm2 : m < t.length := by simpa using Nat.lt_of_succ_lt_succ hm
      have hnm := ih (idx + 1) m hm2 hres
      have he : idx + 1 + m = idx + (m + 1) := by omega
      rw [he] at hnm
      intro hmem
      by_cases hf : rowFetches r
      · rw [fetchesFrom, if_pos hf] at hmem
        rcases List.mem_cons.1 hmem with h | h
        · omega
        · exact hnm h
      · rw [fetchesFrom, if_neg hf] at hmem
        exact hnm hmem

/-- Helper: every record already resolved at loop entry contributes one to
the success count, so the resolved records are all counted as successful. -/
theorem countResolved_le_sum (o : String → FetchOutcome) (rows : List DRow) :
    countResolved rows ≤ ((rows.map (countedScore o)).sum) := by
  induction rows with
  | nil => simp [countResolved]
  | cons r t ih =>
    rw [countResolved, List.countP_cons, List.map_cons, List.sum_cons]
    rw [countResolved] at ih
    by_cases hres : pyStrip r.suite ≠ ""
    · have hsc : countedScore o r = 1 := by simp [countedScore, hres]
      simp only [hres, bne_iff_ne, ne_eq, not_false_iff, if_pos, hsc]
      simp [hres]
      omega
    · have : (pyStrip r.suite != "") = false := by
        simpa using not_not.mp hres
      rw [this]
      simp only [if_neg Bool.false_ne_true]
      omega

/-- Helper: indexing the image of a map. -/
theorem getD_map_rowStep (f : DRow → DRow) (l : List DRow) : ∀ (i : Nat), i < l.length →
    (l.map f).getD i default = f (l.getD i default) := by
  induction l with
  | nil => intro i hi; simp at hi
  | cons r t ih =>
    intro i hi
    cases i with
    | zero => simp
    | succ i =>
      simp only [List.map_cons, List.getD_cons_succ]
      exact ih i (by simpa using Nat.lt_of_succ_lt_succ hi)

/-- Helper: mapping rowStep twice equals mapping it once. -/
theorem map_rowStep_idem (o : String → FetchOutcome) (rows : List DRow) :
    (rows.map (rowStep o)).map (rowStep o) = rows.map (rowStep o) := by
  induction rows with
  | nil => rfl
  | cons r t ih => simp [rowStep_idem, ih]

/-- C2 counterexample: a record whose suite field holds a single space is
non-empty at loop entry, yet the pass fetches it (index 0 appears in the
fetch list) and overwrites it, because the code tests the stripped value. -/
theorem C2_counterexample :
    wsRow.suite ≠ "" ∧ (enrichRun cOracle [wsRow]).fetched = [0] ∧
    (enrichOnce cOracle [wsRow]).getD 0 default ≠ wsRow := by decide

/-- C2 amended: a record whose suite field is non-empty after stripping
whitespace is skipped unchanged, never fetched, and counted as already
successful; and a second invocation on the same input with the same oracle
(the previous output is adopted by the resume protocol) changes nothing, so
every record resolved after run one is unchanged after run two. -/
theorem C2_resolved_skip_idempotence :
    (∀ (o : String → FetchOutcome) (rows : List DRow) (i : Nat), i < rows.length →
      pyStrip (rows.getD i default).suite ≠ "" →
        (enrichOnce o rows).getD i default = rows.getD i default ∧
        i ∉ (enrichRun o rows).fetched) ∧
    (∀ (o : String → FetchOutcome) (rows : List DRow),
      countResolved rows ≤ (enrichRun o rows).success) ∧
    (∀ (o : String → FetchOutcome) (rows : List DRow),
      enrichSecond o rows = enrichOnce o rows) := by
  refine ⟨?_, ?_, ?_⟩
  · intro o rows i hi hres
    constructor
    · rw [enrichOnce_eq_map, getD_map_rowStep _ _ i hi, rowStep_skip o _ hres]
    · rw [enrichRun_fetched]
      have := not_mem_fetchesFrom rows 0 i hi hres
      simpa using this
  · intro o rows
    rw [enrichRun_success]
    exact countResolved_le_sum o rows
  · intro o rows
    have hlen : (enrichOnce o rows).length = rows.length := by
      rw [enrichOnce_eq_map]; simp
    rw [enrichSecond, processWorking, if_pos (by omega)]
    rw [enrichOnce_eq_map o rows, enrichOnce_eq_map o (rows.map (rowStep o))]
    exact map_rowStep_idem o rows

/-- Witness for C2 amended: a concrete resolved record is left unchanged,
unfetched, and counted. -/
theorem C2_resolved_skip_idempotence_witness :
    (enrichOnce cOracle [cRowDone]).getD 0 default = cRowDone ∧
    0 ∉ (enrichRun cOracle [cRowDone]).fetched ∧
    countResolved [cRowDone] ≤ (enrichRun cOracle [cRowDone]).success :=
  ⟨(C2_resolved_skip_idempotence.1 cOracle [cRowDone] 0 (by decide) (by decide)).1,
   (C2_resolved_skip_idempotence.1 cOracle [cRowDone] 0 (by decide) (by decide)).2,
   C2_resolved_skip_idempotence.2.1 cOracle [cRowDone]⟩

/-- C4 counterexample: on twenty-two records whose already-resolved entries
sit exactly on the batch-boundary indices, twenty iterations complete
eighteen enrichments while nothing has been persisted, because the continue
paths of the loop skip the batch-save check: the completed-but-unpersisted
work exceeds one batch interval of ten records. -/
theorem C4_counterexample :
    (esteps cOracle 20 (einit cRows22)).saved = none ∧
    10 < (esteps cOracle 20 (einit cRows22)).done.countP (fun r => r.suite == "#9") := by
  decide

/-- C4 amended: the unconditional save after the loop always persists the
full working table; and an iteration that completes a fetch at an index that
is a multiple of ten or the final index, with enrichment pending, persists
the full working table at that point.  Iterations skipped as already
resolved, missing fields or redirected bypass that check, so the bound of
one batch interval holds only along fetch-completing iterations. -/
theorem C4_batch_persistence :
    (∀ (o : String → FetchOutcome) (rows : List DRow),
      (enrichRun o rows).saved = some (finalRows (esteps o rows.length (einit rows)))) ∧
    (∀ (o : String → FetchOutcome) (st : EState) (row : DRow) (rest : List DRow)
        (s : String),
      st.rest = row :: rest →
      pyStrip row.suite = "" →
      ¬(row.city = "" ∨ row.street = "") →
      o (urlOf row) = .result s →
      (s ≠ "" ∨ st.updatedAny = true) →
      (st.idx % 10 = 0 ∨ st.idx = st.total - 1) →
      (estep o st).saved = some ((estep o st).done ++ rest)) := by
  constructor
  · intro o rows
    rfl
  · intro o st row rest s hr h1 h2 ho hupd hidx
    have h1n : ¬(pyStrip row.suite ≠ "") := not_not.mpr h1
    rw [estep, hr]
    simp only [estepCons, if_neg h1n, if_neg h2, ho]
    have hu : (if s ≠ "" then true else st.updatedAny) = true := by
      rcases hupd with h | h
      · simp [h]
      · by_cases hs : s ≠ "" <;> simp [hs, h]
    simp only [hu]
    rw [if_pos ⟨by trivial, hidx⟩]
    simp

/-- Witness for C4 amended: a fetch-completing iteration at index zero with
a successful enrichment persists the table. -/
theorem C4_batch_persistence_witness :
    (estep cOracle c4State).saved = some ((estep cOracle c4State).done ++ []) ∧
    (enrichRun cOracle [cRowOpen]).saved =
      some (finalRows (esteps cOracle 1 (einit [cRowOpen]))) :=
  ⟨C4_batch_persistence.2 cOracle c4State cRowOpen [] "#9" rfl (by decide)
      (by decide) rfl (Or.inl (by decide)) (Or.inl rfl),
   C4_batch_persistence.1 cOracle [cRowOpen]⟩

/-- Helper: lower-casing never creates or destroys whitespace. -/
theorem lowerC_space (c : Char) : isSpaceC (lowerC c) = isSpaceC c := by
  unfold lowerC
  split <;> rfl

/-- Helper: a character map distributes over joinWith. -/
theorem map_joinWith (f : Char → Char) (sep : List Char) (ws : List (List Char)) :
    (joinWith sep ws).map f = joinWith (sep.map f) (ws.map (List.map f)) := by
  induction ws with
  | nil => rfl
  | cons w ws ih =>
    cases ws with
    | nil => rfl
    | cons w2 t =>
      simp only [joinWith, List.map_cons, List.map_append]
      rw [ih]
      simp [joinWith]

/-- Helper: splitting a lower-cased text gives the lower-cased words. -/
theorem pySplitAux_lower (l : List Char) : ∀ acc : List Char,
    pySplitAux (lowerCL l) (lowerCL acc) = (pySplitAux l acc).map lowerCL := by
  induction l with
  | nil =>
    intro acc
    cases acc with
    | nil => rfl
    | cons a t =>
      simp only [pySplitAux, lowerCL, List.map_cons]
      rw [if_neg (by simp), if_neg (by simp)]
      simp only [List.map_cons, List.map_nil, lowerCL]
      rw [List.map_reverse, List.map_cons]
  | cons c t ih =>
    intro acc
    simp only [lowerCL, List.map_cons] at *
    by_cases hsp : isSpaceC c
    · have hsp2 : isSpaceC (lowerC c) = true := by rw [lowerC_space]; exact hsp
      cases acc with
      | nil =>
        simp only [pySplitAux, hsp2, hsp, if_true, List.map_nil, ite_true]
        have := ih []
        simpa [lowerCL] using this
      | cons a t2 =>
        simp only [pySplitAux, hsp2, hsp, if_true, List.map_cons, ite_true]
        rw [if_neg (by simp), if_neg (by simp)]
        have h0 := ih []
        simp only [lowerCL, List.map_nil] at h0
        rw [h0]
        simp [List.map_reverse, lowerCL]
    · have hsp2 : isSpaceC (lowerC c) = false := by
        rw [lowerC_space]; simpa using hsp
      simp only [pySplitAux, hsp2, hsp, if_false, Bool.false_eq_true, ite_false]
      have := ih (c :: acc)
      simpa [lowerCL] using this

/-- Helper: no word produced by the whitespace split contains whitespace. -/
theorem pySplitAux_no_space (l : List Char) : ∀ acc : List Char,
    (∀ c ∈ acc, isSpaceC c = false) →
    ∀ w ∈ pySplitAux l acc, ∀ c ∈ w, isSpaceC c = false := by
  induction l with
  | nil =>
    intro acc hacc w hw c hc
    by_cases ha : acc = []
    · rw [pySplitAux, if_pos ha] at hw
      simp at hw
    · rw [pySplitAux, if_neg ha] at hw
      rw [List.mem_singleton] at hw
      subst hw
      exact hacc c (List.mem_reverse.1 hc)
  | cons ch t ih =>
    intro acc hacc w hw c hc
    by_cases hsp : isSpaceC ch
    · rw [pySplitAux, if_pos hsp] at hw
      by_cases ha : acc = []
      · rw [if_pos ha] at hw
        exact ih [] (by simp) w hw c hc
      · rw [if_neg ha] at hw
        rcases List.mem_cons.1 hw with h | h
        · subst h
          exact hacc c (List.mem_reverse.1 hc)
        · exact ih [] (by simp) w h c hc
    · rw [pySplitAux, if_neg hsp] at hw
      refine ih (ch :: acc) ?_ w hw c hc
      intro c2 hc2
      rcases List.mem_cons.1 hc2 with h | h
      · subst h
        simpa using hsp
      · exact hacc c2 h

/-- Helper: hyphenation leaves a whitespace-free word untouched. -/
theorem replChar_no_space (w : List Char) (h : ∀ c ∈ w, isSpaceC c = false) :
    replChar ' ' '-' w = w := by
  induction w with
  | nil => rfl
  | cons c t ih =>
    have hc : isSpaceC c = false := h c (List.mem_cons_self c t)
    have hne : ¬(c = ' ') := by
      intro he
      rw [he] at hc
      simp [isSpaceC] at hc
    simp only [replChar, List.map_cons, if_neg hne]
    exact congrArg (c :: ·) (ih fun c2 hc2 => h c2 (List.mem_cons_of_mem c hc2))

/-- Helper: on whitespace-free words, replacing spaces after joining with a
space equals joining with a hyphen. -/
theorem replChar_joinWith (ws : List (List Char))
    (h : ∀ w ∈ ws, ∀ c ∈ w, isSpaceC c = false) :
    replChar ' ' '-' (joinWith [' '] ws) = joinWith ['-'] ws := by
  induction ws with
  | nil => rfl
  | cons w ws ih =>
    cases ws with
    | nil =>
      simp only [joinWith]
      exact replChar_no_space w (h w (List.mem_cons_self w []))
    | cons w2 t =>
      simp only [joinWith]
      show List.map _ (w ++ [' '] ++ joinWith [' '] (w2 :: t)) = _
      rw [List.map_append, List.map_append]
      have hw : List.map (fun c => if c = ' ' then '-' else c) w = w :=
        replChar_no_space w (h w (List.mem_cons_self w (w2 :: t)))
      have hj : List.map (fun c => if c = ' ' then '-' else c)
          (joinWith [' '] (w2 :: t)) = joinWith ['-'] (w2 :: t) :=
        ih fun w3 hw3 => h w3 (List.mem_cons_of_mem w hw3)
      rw [hw, hj]
      rfl

/-- Helper: the code-side slug (clean_text, lower, hyphenate) equals the
spec-side slug (lower, hyphenate whitespace runs). -/
theorem slug_code_eq_spec (l : List Char) :
    replChar ' ' '-' (lowerCL (joinWith [' '] (wordsOf l))) = slugSpecCL l := by
  have h1 : lowerCL (joinWith [' '] (wordsOf l)) =
      joinWith [' '] ((wordsOf l).map lowerCL) := by
    rw [lowerCL, map_joinWith]
    rfl
  rw [h1]
  have h2 : ∀ w ∈ (wordsOf l).map lowerCL, ∀ c ∈ w, isSpaceC c = false := by
    intro w hw c hc
    rcases List.mem_map.1 hw with ⟨w0, hw0, hweq⟩
    subst hweq
    rcases List.mem_map.1 hc with ⟨c0, hc0, hceq⟩
    subst hceq
    rw [lowerC_space]
    exact pySplitAux_no_space l [] (by simp) w0 hw0 c0 hc0
  rw [replChar_joinWith _ h2, slugSpecCL, wordsOf, wordsOf]
  have h3 : pySplitAux (lowerCL l) [] = (pySplitAux l []).map lowerCL :=
    pySplitAux_lower l []
  rw [h3]

/-- C9: the synthesized detail URL is a pure function of the city and street
pair, so two calls on the same pair always agree; it equals the spec-side
construction that lower-cases, hyphenates whitespace runs and strips periods
and hash marks from the street; and the example pair yields the expected
fixed URL. -/
theorem C9_url_construction :
    (∀ c1 s1 c2 s2 : String, c1 = c2 → s1 = s2 →
      construct_url c1 s1 = construct_url c2 s2) ∧
    (∀ city street, construct_url city street = urlSpec city street) ∧
    construct_url "New York" "123 Main St. #5" =
      "https://www.anytimemailbox.com/s/new-york-123-main-st-5" := by
  refine ⟨?_, ?_, by decide⟩
  · intro c1 s1 c2 s2 h1 h2
    rw [h1, h2]
  · intro city street
    rw [construct_url, urlSpec]
    have hdc : (clean_text city).data = joinWith [' '] (wordsOf city.data) := rfl
    have hds : (clean_text street).data = joinWith [' '] (wordsOf street.data) := rfl
    rw [hdc, hds, slug_code_eq_spec city.data, slug_code_eq_spec street.data]

/-- Witness for C9: the determinism clause at the example pair. -/
theorem C9_url_construction_witness :
    construct_url "New York" "123 Main St. #5" =
      construct_url "New York" "123 Main St. #5" :=
  C9_url_construction.1 "New York" "123 Main St. #5" "New York" "123 Main St. #5" rfl rfl

end ATMB

